import Mathlib

/-!
Verification of the geospatial ETL script
`copy_esrigrid_to_geotiff_rename_and_clip_w_Arguments.py`.

The script's original logic (directory classification, filename-based
renaming, region-title normalization, zip packaging, JSON metadata
emission, S3 upload-key construction) is embedded shallowly below.
Python strings are Lean `String`s; Python string primitives
(`str.split`, `str.strip`, `str.startswith`, `str.endswith`,
`os.path.basename`, `os.path.splitext`) are re-implemented faithfully
over `List Char`.  Python `dict`s keyed by strings are association
lists preserving insertion order, as CPython dicts do.  Fallible code
(`dict[k]` raising `KeyError`, list indexing raising `IndexError`)
returns `Option`.  External effects (the filesystem walk, the GIS
toolkit's reprojection, the S3 client call, the zip-member write) are
inputs of the embedded functions: a walk is a list of
(directory, filenames) entries in traversal order, reprojection is an
abstract function argument, and the fallible S3/zip calls are oracles.
-/

namespace GeoETL

/-! ## String primitives (modelling the Python ones) -/

/-- Model of Python `s.split(sep)` for a single-character separator,
on the character list: `"a_b" ↦ [[a],[b]]`, `"" ↦ [[]]`, `"_" ↦ [[],[]]`. -/
def splitChar (sep : Char) : List Char → List (List Char)
  | [] => [[]]
  | c :: cs =>
    let r := splitChar sep cs
    if c = sep then [] :: r
    else
      match r with
      | [] => [[c]]
      | g :: gs => (c :: g) :: gs

/-- Model of Python `s.split(sep)` for a one-character separator, on `String`. -/
def splitStr (sep : Char) (s : String) : List String :=
  (splitChar sep s.data).map (fun cs => ⟨cs⟩)

/-- The part of `s` strictly before the first occurrence of the (non-empty)
pattern `pat`; the whole of `s` when `pat` does not occur.  This models
Python `s.split(pat)[0]`. -/
def takeBeforeFirst (pat : List Char) : List Char → List Char
  | [] => []
  | c :: cs => if pat.isPrefixOf (c :: cs) then [] else c :: takeBeforeFirst pat cs

/-- Whether the pattern `pat` occurs as a contiguous substring. -/
def containsSub (pat : List Char) : List Char → Bool
  | [] => pat.isPrefixOf []
  | c :: cs => pat.isPrefixOf (c :: cs) || containsSub pat cs

/-- Model of Python `os.path.basename` on Windows (`ntpath`): the part of the
path after the last `\` or `/` separator. -/
def basenameChars (cs : List Char) : List Char :=
  (cs.reverse.takeWhile (fun c => c ≠ '/' ∧ c ≠ '\\')).reverse

/-- Model of Python `os.path.basename` on `String`. -/
def basename (s : String) : String :=
  ⟨basenameChars s.data⟩

/-- Model of Python `os.path.splitext` on a bare file name (no directory
part): split at the last dot, except that a file name consisting of leading
dots only has no extension (so `".asc"` has stem `".asc"` and empty
extension, exactly as in CPython's `genericpath._splitext`). -/
def splitextChars (cs : List Char) : List Char × List Char :=
  let afterDot := cs.reverse.takeWhile (fun c => c ≠ '.')
  if afterDot.length = cs.length then
    (cs, [])
  else
    let stemLen := cs.length - afterDot.length - 1
    let stem := cs.take stemLen
    if stem.any (fun c => c ≠ '.') then (stem, cs.drop stemLen) else (cs, [])

/-- Model of Python `s.strip('/')`: drop `'/'` characters from both ends. -/
def stripSlashChars (cs : List Char) : List Char :=
  (((cs.dropWhile (fun c => c = '/')).reverse.dropWhile (fun c => c = '/')).reverse)

/-- Dropping `'/'` characters from the right end only ("trailing slash
stripped" — the behaviour the spec describes for upload-key construction). -/
def stripTrailingSlashes (cs : List Char) : List Char :=
  (cs.reverse.dropWhile (fun c => c = '/')).reverse

/-- Model of Python `s.startswith(p)`. -/
def startsWithL (p s : List Char) : Bool := p.isPrefixOf s

/-- Model of Python `s.endswith(p)`. -/
def endsWithL (p s : List Char) : Bool := p.isSuffixOf s

/-! ## Grid file classifier (`parse_input_files`, source lines 189–221)

The script walks `input_location` with `os.walk`, keeps files ending in
`".asc"`, and inserts `os.path.join(root, file)` into the module-level
dict `ascfile_dict` under the key `os.path.splitext(file)[0]`, appending
when the key is already present.  We model the walk as the list of
`(root, files)` pairs that `os.walk` yields, in traversal order, and
pass the (module-level, hence explicit here) dictionary state in and out. -/

/-- One `os.walk` entry: the directory path and the file names inside it. -/
structure WalkEntry where
  root : String
  files : List String
deriving DecidableEq

/-- Model of `os.path.join(root, file)` for a file name free of separators. -/
def joinPath (root file : String) : String := root ++ "\\" ++ file

/-- The stem (`os.path.splitext(file)[0]`) of a file name. -/
def stemOf (file : String) : String := ⟨(splitextChars file.data).1⟩

/-- The classifier's dictionary: insertion-ordered association list from
stem to the list of paths recorded under it. -/
abbrev AscDict := List (String × List String)

/-- Model of the script's dict update: append the path to the existing
entry for `k`, or add a new entry at the end (CPython dict insertion order). -/
def dictAppend (d : AscDict) (k : String) (p : String) : AscDict :=
  match d with
  | [] => [(k, [p])]
  | (k', ps) :: rest =>
      if k' = k then (k', ps ++ [p]) :: rest else (k', ps) :: dictAppend rest k p

/-- First value stored under key `k`, models Python `d[k]` as an `Option`. -/
def dictFind (d : AscDict) (k : String) : Option (List String) :=
  match d with
  | [] => none
  | (k', ps) :: rest => if k' = k then some ps else dictFind rest k

/-- Fold a list of (stem, path) pairs into the dictionary. -/
def buildDict (d : AscDict) (ps : List (String × String)) : AscDict :=
  ps.foldl (fun d kp => dictAppend d kp.1 kp.2) d

/-- The (stem, joined path) pairs of the `".asc"` files of a walk, in
traversal order. -/
def ascPairs (walk : List WalkEntry) : List (String × String) :=
  walk.flatMap (fun e =>
    (e.files.filter (fun f => endsWithL ".asc".data f.data)).map
      (fun f => (stemOf f, joinPath e.root f)))

/-- Embedding of `parse_input_files` (source lines 195–221): iterate the
walk, group `".asc"` paths by stem into the dictionary `d` (the script's
module-level `ascfile_dict`), return the updated dictionary.  The
`os.makedirs` side effects carry no data and are omitted. -/
def parse_input_files (d : AscDict) (walk : List WalkEntry) : AscDict :=
  walk.foldl
    (fun d e =>
      e.files.foldl
        (fun d file =>
          if endsWithL ".asc".data file.data then
            dictAppend d (stemOf file) (joinPath e.root file)
          else d)
        d)
    d

/-! ## Dictionary lemmas -/

/-- How `dictFind` looks through a `dictAppend`. -/
theorem dictFind_dictAppend (d : AscDict) (k p k' : String) :
    dictFind (dictAppend d k p) k' =
      if k' = k then some ((dictFind d k).getD [] ++ [p]) else dictFind d k' := by
  induction d with
  | nil =>
      by_cases h : k' = k
      · subst h; simp [dictAppend, dictFind]
      · simp [dictAppend, dictFind, h, Ne.symm h]
  | cons hd tl ih =>
      obtain ⟨k₀, ps₀⟩ := hd
      by_cases h0 : k₀ = k
      · subst h0
        by_cases h : k' = k₀
        · subst h; simp [dictAppend, dictFind]
        · simp [dictAppend, dictFind, h, Ne.symm h]
      · by_cases h : k' = k₀
        · subst h
          simp [dictAppend, dictFind, h0, Ne.symm h0]
        · simp [dictAppend, dictFind, h0, h, Ne.symm h, ih]

/-- Combine the paths already stored under a key with newly recorded ones:
an absent key stays absent only when nothing new is recorded. -/
def combinePaths : Option (List String) → List String → Option (List String)
  | some l, m => some (l ++ m)
  | none, [] => none
  | none, m => some m

/-- Lookup in a dictionary built by folding (stem, path) pairs. -/
theorem buildDict_find (ps : List (String × String)) (d : AscDict) (k : String) :
    dictFind (buildDict d ps) k =
      combinePaths (dictFind d k) ((ps.filter (fun q => q.1 = k)).map Prod.snd) := by
  induction ps generalizing d with
  | nil => cases h : dictFind d k <;> simp [buildDict, combinePaths, h]
  | cons q rest ih =>
      obtain ⟨k₀, p₀⟩ := q
      have step : buildDict d ((k₀, p₀) :: rest) = buildDict (dictAppend d k₀ p₀) rest := rfl
      rw [step, ih, dictFind_dictAppend]
      by_cases h : k = k₀
      · subst h
        cases hfd : dictFind d k with
        | some l => simp [combinePaths]
        | none =>
            rw [List.filter_cons_of_pos (by simp), List.map_cons]
            simp [combinePaths]
      · simp [h, Ne.symm h]

/-- The key list after `dictAppend`: unchanged for a known key, extended at
the end for a fresh one. -/
theorem dictAppend_keys (d : AscDict) (k p : String) :
    (dictAppend d k p).map Prod.fst =
      if k ∈ d.map Prod.fst then d.map Prod.fst else d.map Prod.fst ++ [k] := by
  induction d with
  | nil => simp [dictAppend]
  | cons hd tl ih =>
      obtain ⟨k₀, ps₀⟩ := hd
      by_cases h : k₀ = k
      · subst h
        simp [dictAppend]
      · simp [dictAppend, h, ih, Ne.symm h]
        by_cases hm : k ∈ tl.map Prod.fst <;> simp [hm, Ne.symm h]

/-- Key membership after `dictAppend`. -/
theorem mem_dictAppend_keys (d : AscDict) (k p k' : String) :
    k' ∈ (dictAppend d k p).map Prod.fst ↔ k' ∈ d.map Prod.fst ∨ k' = k := by
  rw [dictAppend_keys]
  by_cases hm : k ∈ d.map Prod.fst
  · simp only [hm, if_true]
    constructor
    · exact fun h => Or.inl h
    · intro h
      rcases h with h | h
      · exact h
      · rw [h]; exact hm
  · simp [hm]

/-- Appending keeps the key list duplicate-free. -/
theorem dictAppend_keys_nodup (d : AscDict) (k p : String)
    (h : (d.map Prod.fst).Nodup) : ((dictAppend d k p).map Prod.fst).Nodup := by
  rw [dictAppend_keys]
  by_cases hm : k ∈ d.map Prod.fst
  · simpa [hm] using h
  · simp [hm, List.nodup_append, h]

/-- Building keeps the key list duplicate-free. -/
theorem buildDict_keys_nodup (ps : List (String × String)) (d : AscDict)
    (h : (d.map Prod.fst).Nodup) : ((buildDict d ps).map Prod.fst).Nodup := by
  induction ps generalizing d with
  | nil => exact h
  | cons q rest ih => exact ih _ (dictAppend_keys_nodup _ _ _ h)

/-- Key membership in `buildDict`. -/
theorem buildDict_keys_mem (ps : List (String × String)) (d : AscDict) (k : String) :
    k ∈ (buildDict d ps).map Prod.fst ↔ k ∈ d.map Prod.fst ∨ k ∈ ps.map Prod.fst := by
  induction ps generalizing d with
  | nil => simp [buildDict]
  | cons q rest ih =>
      have step : buildDict d (q :: rest) = buildDict (dictAppend d q.1 q.2) rest := rfl
      rw [step, ih, mem_dictAppend_keys]
      simp [or_assoc, or_comm, or_left_comm]

/-- With duplicate-free keys, membership of an entry determines the lookup. -/
theorem dictFind_eq_of_mem (d : AscDict) (k : String) (ps : List String)
    (h : (d.map Prod.fst).Nodup) (hm : (k, ps) ∈ d) : dictFind d k = some ps := by
  induction d with
  | nil => cases hm
  | cons hd tl ih =>
      obtain ⟨k₀, ps₀⟩ := hd
      rcases List.mem_cons.mp hm with he | he
      · obtain ⟨rfl, rfl⟩ := Prod.ext_iff.mp he
        simp [dictFind]
      · have hk : k₀ ≠ k := by
          rintro rfl
          exact (List.nodup_cons.mp h).1 (List.mem_map.mpr ⟨(k₀, ps), he, rfl⟩)
        rw [show dictFind ((k₀, ps₀) :: tl) k = dictFind tl k by simp [dictFind, hk]]
        exact ih (List.nodup_cons.mp h).2 he

/-- A lookup hit comes from an entry of the dictionary. -/
theorem mem_of_dictFind_eq (d : AscDict) (k : String) (ps : List String)
    (h : dictFind d k = some ps) : (k, ps) ∈ d := by
  induction d with
  | nil => simp [dictFind] at h
  | cons hd tl ih =>
      obtain ⟨k₀, ps₀⟩ := hd
      by_cases hk : k₀ = k
      · subst hk
        simp [dictFind] at h
        simp [h]
      · simp [dictFind, hk] at h
        exact List.mem_cons_of_mem _ (ih h)

/-- The inner per-directory fold of `parse_input_files` is a `buildDict`
over that directory's (stem, path) pairs. -/
theorem foldl_files_eq (files : List String) (root : String) (d : AscDict) :
    files.foldl
      (fun d file =>
        if endsWithL ".asc".data file.data then
          dictAppend d (stemOf file) (joinPath root file)
        else d) d
    = buildDict d
        ((files.filter (fun f => endsWithL ".asc".data f.data)).map
          (fun f => (stemOf f, joinPath root f))) := by
  induction files generalizing d with
  | nil => rfl
  | cons f rest ih =>
      by_cases h : endsWithL ".asc".data f.data <;>
        simp [List.foldl_cons, h, ih, buildDict]

/-- Folding a concatenation of pair lists is folding one after the other. -/
theorem buildDict_append (d : AscDict) (a b : List (String × String)) :
    buildDict d (a ++ b) = buildDict (buildDict d a) b :=
  List.foldl_append ..

/-- The classifier is the `buildDict` of the walk's (stem, path) pairs. -/
theorem parse_input_files_eq (d : AscDict) (walk : List WalkEntry) :
    parse_input_files d walk = buildDict d (ascPairs walk) := by
  induction walk generalizing d with
  | nil => rfl
  | cons e rest ih =>
      have step : parse_input_files d (e :: rest) =
          parse_input_files
            (e.files.foldl
              (fun d file =>
                if endsWithL ".asc".data file.data then
                  dictAppend d (stemOf file) (joinPath e.root file)
                else d) d)
            rest := rfl
      rw [step, ih, foldl_files_eq]
      simp only [ascPairs, List.flatMap_cons, buildDict_append]

/-- C3: for every walk, the classifier (run from the empty module-level
dictionary) returns one group per distinct stem of the `".asc"` files —
keys are duplicate-free and are exactly the stems seen — and each group's
path list is exactly the traversal-ordered list of the `".asc"` paths with
that stem, so stems repeated across subfolders merge into one group and
the union of the groups is exactly the walked `".asc"` files. -/
theorem parse_input_files_classifies (walk : List WalkEntry) :
    ((parse_input_files [] walk).map Prod.fst).Nodup
  ∧ (∀ k, k ∈ (parse_input_files [] walk).map Prod.fst ↔ k ∈ (ascPairs walk).map Prod.fst)
  ∧ (∀ k ps, (k, ps) ∈ parse_input_files [] walk →
      ps = ((ascPairs walk).filter (fun q => q.1 = k)).map Prod.snd) := by
  rw [parse_input_files_eq]
  refine ⟨buildDict_keys_nodup _ _ (by simp), fun k => ?_, fun k ps hm => ?_⟩
  · rw [buildDict_keys_mem]
    simp
  · have hfd := dictFind_eq_of_mem _ _ _ (buildDict_keys_nodup _ [] (by simp)) hm
    rw [buildDict_find] at hfd
    simp only [dictFind] at hfd
    cases hflt : ((ascPairs walk).filter (fun q => q.1 = k)).map Prod.snd with
    | nil =>
        rw [hflt] at hfd
        simp [combinePaths] at hfd
    | cons x xs =>
        rw [hflt] at hfd
        simpa [combinePaths] using hfd.symm

/-- C8: the classifier accumulates into the module-level dictionary rather
than a fresh one: running `parse_input_files` a second time over the same
walk (starting from the state the first run left) yields, for every stem,
the first run's path list concatenated with itself, so every previously
recorded path (all distinct in a real walk) appears exactly twice. -/
theorem parse_input_files_not_idempotent (walk : List WalkEntry)
    (hnd : ((ascPairs walk).map Prod.snd).Nodup) :
    ∀ k ps₁ ps₂, (k, ps₁) ∈ parse_input_files [] walk →
      (k, ps₂) ∈ parse_input_files (parse_input_files [] walk) walk →
      ps₂ = ps₁ ++ ps₁ ∧ ∀ p ∈ ps₁, ps₂.count p = 2 := by
  intro k ps₁ ps₂ h1 h2
  have hnod1 : ((parse_input_files [] walk).map Prod.fst).Nodup :=
    (parse_input_files_classifies walk).1
  have hfd1 : dictFind (parse_input_files [] walk) k = some ps₁ :=
    dictFind_eq_of_mem _ _ _ hnod1 h1
  have hps1 : ps₁ = ((ascPairs walk).filter (fun q => q.1 = k)).map Prod.snd :=
    (parse_input_files_classifies walk).2.2 k ps₁ h1
  have hnod2 : ((parse_input_files (parse_input_files [] walk) walk).map Prod.fst).Nodup := by
    rw [parse_input_files_eq]
    exact buildDict_keys_nodup _ _ hnod1
  have hfd2 : dictFind (parse_input_files (parse_input_files [] walk) walk) k = some ps₂ :=
    dictFind_eq_of_mem _ _ _ hnod2 h2
  rw [parse_input_files_eq, buildDict_find, hfd1, ← hps1] at hfd2
  have heq : ps₂ = ps₁ ++ ps₁ := by
    simpa [combinePaths] using hfd2.symm
  refine ⟨heq, fun p hp => ?_⟩
  have hsub : ps₁.Sublist ((ascPairs walk).map Prod.snd) := by
    rw [hps1]
    exact List.Sublist.map Prod.snd (List.filter_sublist _)
  have hnod : ps₁.Nodup := hnd.sublist hsub
  have hc1 : ps₁.count p = 1 := List.count_eq_one_of_mem hnod hp
  rw [heq, List.count_append, hc1]

/-- Witness for C8 at a concrete two-subfolder walk holding the same stem
twice: after the second run the group holds each of the two paths twice. -/
theorem parse_input_files_not_idempotent_witness :
    ("r1\\a_b.asc" ≠ "r2\\a_b.asc")
  ∧ (["r1\\a_b.asc", "r2\\a_b.asc", "r1\\a_b.asc", "r2\\a_b.asc"]
      = ["r1\\a_b.asc", "r2\\a_b.asc"] ++ ["r1\\a_b.asc", "r2\\a_b.asc"])
  ∧ (["r1\\a_b.asc", "r2\\a_b.asc", "r1\\a_b.asc", "r2\\a_b.asc"].count "r1\\a_b.asc" = 2) := by
  have h := parse_input_files_not_idempotent
    [⟨"r1", ["a_b.asc"]⟩, ⟨"r2", ["a_b.asc"]⟩] (by decide)
    "a_b" ["r1\\a_b.asc", "r2\\a_b.asc"]
    ["r1\\a_b.asc", "r2\\a_b.asc", "r1\\a_b.asc", "r2\\a_b.asc"]
    (by decide) (by decide)
  exact ⟨by decide, h.1, h.2 "r1\\a_b.asc" (by decide)⟩

/-- Witness-style corollary for C3 at a concrete walk: the group of stem
`"a_b"` is exactly the two traversal-ordered paths under that stem. -/
theorem parse_input_files_classifies_witness :
    ["r1\\a_b.asc", "r2\\a_b.asc"]
      = ((ascPairs [⟨"r1", ["a_b.asc", "x.txt"]⟩, ⟨"r2", ["a_b.asc"]⟩]).filter
          (fun q => q.1 = "a_b")).map Prod.snd :=
  (parse_input_files_classifies [⟨"r1", ["a_b.asc", "x.txt"]⟩, ⟨"r2", ["a_b.asc"]⟩]).2.2
    "a_b" ["r1\\a_b.asc", "r2\\a_b.asc"] (by decide)

/-! ## Region title normalization (`process_files_in_ascdict`, source lines 276–279)

The script derives `region_title = row[1].split(" Region")[0]` from the
region feature's display name, then patches titles beginning with
`"Area"` to the literal `"Chatham Islands"`. -/

/-- Embedding of the region-title derivation: the display name truncated at
the first occurrence of `" Region"`, with the `"Area"` special-case patch. -/
def region_title_of (displayName : String) : String :=
  let t : String := ⟨takeBeforeFirst " Region".data displayName.data⟩
  if startsWithL "Area".data t.data then "Chatham Islands" else t

/-- Truncation at a pattern that does not occur leaves the list unchanged. -/
theorem takeBeforeFirst_of_not_contains (pat cs : List Char)
    (h : containsSub pat cs = false) : takeBeforeFirst pat cs = cs := by
  induction cs with
  | nil => rfl
  | cons c cs ih =>
      rw [containsSub, Bool.or_eq_false_iff] at h
      rw [takeBeforeFirst]
      simp only [h.1, Bool.false_eq_true, if_false]
      rw [ih h.2]

/-- Truncating `t ++ pat` at the first occurrence of `pat` recovers `t`,
provided `pat` does not occur in `t` and `pat` has no border (no proper
non-empty prefix of `pat` is also a suffix of `pat`), so no occurrence can
straddle the append boundary. -/
theorem takeBeforeFirst_append_self (pat : List Char) (hne : pat ≠ [])
    (hnb : ∀ m, m < pat.length → 0 < m → ¬ (pat.drop m <+: pat)) :
    ∀ t : List Char, containsSub pat t = false → takeBeforeFirst pat (t ++ pat) = t := by
  intro t
  induction t with
  | nil =>
      intro _
      rw [List.nil_append]
      cases pat with
      | nil => exact absurd rfl hne
      | cons c cs => simp [takeBeforeFirst]
  | cons c cs ih =>
      intro h
      rw [containsSub, Bool.or_eq_false_iff] at h
      have hnotpre : ¬ (pat <+: (c :: cs) ++ pat) := by
        intro hpre
        by_cases hlen : pat.length ≤ (c :: cs).length
        · have hp2 : pat <+: c :: cs :=
            List.prefix_of_prefix_length_le hpre (List.prefix_append _ _) hlen
          rw [← List.isPrefixOf_iff_prefix] at hp2
          simp [hp2] at h
        · push_neg at hlen
          have hp1 : (c :: cs) <+: pat :=
            List.prefix_of_prefix_length_le (List.prefix_append _ _) hpre
              (Nat.le_of_lt hlen)
          have hpeq : pat = (c :: cs) ++ pat.take (pat.length - (c :: cs).length) := by
            have h0 := List.prefix_iff_eq_take.mp hpre
            rwa [List.take_append_eq_append_take,
              List.take_of_length_le (Nat.le_of_lt hlen)] at h0
          have hdrop : pat.drop (c :: cs).length <+: pat := by
            have h1 := congrArg (List.drop (c :: cs).length) hpeq
            rw [List.drop_left] at h1
            rw [h1]
            exact List.take_prefix _ _
          exact hnb (c :: cs).length hlen (by simp) hdrop
      rw [List.cons_append, takeBeforeFirst]
      have hb : pat.isPrefixOf (c :: (cs ++ pat)) = false := by
        rw [← Bool.not_eq_true, List.isPrefixOf_iff_prefix]
        exact fun hh => hnotpre (by simpa using hh)
      simp only [hb, Bool.false_eq_true, if_false]
      rw [ih h.2]

/-- Unfolding equation for `region_title_of`. -/
theorem region_title_of_eq (s : String) :
    region_title_of s =
      if startsWithL "Area".data (takeBeforeFirst " Region".data s.data) then
        "Chatham Islands"
      else ⟨takeBeforeFirst " Region".data s.data⟩ := rfl

/-- C2 counterexample: the display name `"West Regional Council"` does not
end in `" Region"` and does not start with `"Area"`, yet the code does not
leave it unchanged — `split(" Region")[0]` truncates at the first
occurrence of `" Region"` (inside `"Regional"`), yielding `"West"`. -/
theorem region_title_of_counterexample :
    region_title_of "West Regional Council" = "West"
  ∧ endsWithL " Region".data "West Regional Council".data = false
  ∧ startsWithL "Area".data "West Regional Council".data = false
  ∧ "West" ≠ "West Regional Council" := by
  refine ⟨by decide, by decide, by decide, by decide⟩

/-- C2 (amended): the derived region title is the display name truncated at
the first occurrence of `" Region"` — so for a display name whose only
occurrence of `" Region"` is a trailing suffix, that suffix is removed, and
a display name with no occurrence at all is kept whole — after which a
title beginning with `"Area"` is replaced unconditionally by the literal
`"Chatham Islands"`. -/
theorem region_title_of_amended (t : String)
    (h : containsSub " Region".data t.data = false) :
    region_title_of ⟨t.data ++ " Region".data⟩ =
      (if startsWithL "Area".data t.data then "Chatham Islands" else t)
  ∧ (startsWithL "Area".data t.data = false → region_title_of t = t) := by
  have htb : takeBeforeFirst " Region".data
      (String.data ⟨t.data ++ " Region".data⟩) = t.data :=
    takeBeforeFirst_append_self " Region".data (by decide) (by decide) t.data h
  constructor
  · rw [region_title_of_eq, htb]
  · intro hA
    have htb2 : takeBeforeFirst " Region".data t.data = t.data :=
      takeBeforeFirst_of_not_contains _ _ h
    rw [region_title_of_eq, htb2, hA]
    simp

/-- Witness for the amended C2 at concrete display names: the real suffix
case, the unchanged case, and the `"Area"` patch case. -/
theorem region_title_of_amended_witness :
    containsSub " Region".data "Northland".data = false
  ∧ region_title_of "Northland Region" = "Northland"
  ∧ region_title_of "Northland" = "Northland"
  ∧ region_title_of "Area Outside Region" = "Chatham Islands" := by
  have h1 := region_title_of_amended "Northland" (by decide)
  have h2 := region_title_of_amended "Area Outside" (by decide)
  exact ⟨by decide, h1.1, h1.2 (by decide), h2.1⟩

/-! ## Lookup tables (source lines 120–181) and the naming deriver
(`process_files_in_ascdict`, source lines 243–251) -/

/-- The month/season dictionary `lookup_month_and_season_name`. -/
def lookup_month_and_season_name : List (String × String) :=
  [("monthly1", "January"), ("monthly2", "February"), ("monthly3", "March"),
   ("monthly4", "April"), ("monthly5", "May"), ("monthly6", "June"),
   ("monthly7", "July"), ("monthly8", "August"), ("monthly9", "September"),
   ("monthly10", "October"), ("monthly11", "November"), ("monthly12", "December"),
   ("seasonal1", "Summer"), ("seasonal2", "Autumn"), ("seasonal3", "Winter"),
   ("seasonal4", "Spring"), ("annual", "Annual")]

/-- The parameter dictionary `lookup_dict_parameter`. -/
def lookup_dict_parameter : List (String × String) :=
  [("00", "Total-Rainfall"), ("01", "Wet-Days-GT-1mm"), ("02", "Mean-Air-Temperature"),
   ("03", "Mean-Daily-Maximum-Air-Temperature"), ("04", "Mean-Daily-Minimum-Air-Temperature"),
   ("09", "Total-Sunshine"), ("11", "Mean-Earth-Temperature-At-10cm"),
   ("17", "Mean-Daily-Global-Irradiance"), ("23", "Screen-Frost-Days"),
   ("33", "Mean-Daily-Wind-Speed-At-10m"), ("34", "Total-Penman-PET"),
   ("37", "Total-Growing-Degree-Days-GDD-base-5degC"),
   ("38", "Total-Growing-Degree-Days-GDD-base-10degC"), ("64", "Mean-9AM-RH"),
   ("68", "Total-Heating-Degree-Days-HDD-base-18degC"),
   ("74", "Days-Of-Soil-Moisture-Deficit")]

/-- The region dictionary `lookup_dict_region`. -/
def lookup_dict_region : List (String × String) :=
  [("01", "Northland"), ("02", "Auckland"), ("03", "Waikato"),
   ("04", "Bay-Of-Plenty"), ("05", "Gisborne"), ("06", "Hawkes-Bay"),
   ("07", "Taranaki"), ("08", "Manawatu-Whanganui"), ("09", "Wellington"),
   ("12", "West-Coast"), ("13", "Canterbury"), ("14", "Otago"),
   ("15", "Southland"), ("16", "Tasman"), ("17", "Nelson"),
   ("18", "Marlborough"), ("99", "Chatham-Islands")]

/-- Model of the Python dict access `d[k]`: `none` models the `KeyError`. -/
def dictGet (d : List (String × String)) (k : String) : Option String :=
  match d with
  | [] => none
  | (k', v) :: rest => if k' = k then some v else dictGet rest k

/-- Embedding of the renaming logic of `process_files_in_ascdict` (source
lines 243–251): split the base name at underscores, look up segment 1 in
the parameter table and the last segment in the month/season table, and
compose `{parameterName}_{parts[4]}_1991-2020_{month_and_season}`.
A missing index (`IndexError`) or a missing key (`KeyError`) is `none`. -/
def derive_new_file_name (base_name : String) : Option String := do
  let parts := splitStr '_' base_name
  let lastSeg ← parts.getLast?
  let parameter_code ← parts[1]?
  let month_and_season ← dictGet lookup_month_and_season_name lastSeg
  let parameterName ← dictGet lookup_dict_parameter parameter_code
  let seg4 ← parts[4]?
  pure (parameterName ++ "_" ++ seg4 ++ "_1991-2020_" ++ month_and_season)

/-- C4: on a base name with at least five underscore-delimited segments, if
segment 1 is a key of the parameter table and the last segment a key of the
month/season table, the derived name is
`{parameterName}_{segment4}_1991-2020_{periodName}` with the fixed
`1991-2020` range; if either code is absent from its table the derivation
fails (the `KeyError` is not caught locally). -/
theorem derive_new_file_name_spec (base_name : String)
    (h5 : 5 ≤ (splitStr '_' base_name).length) :
    (∀ pn mn,
      dictGet lookup_dict_parameter ((splitStr '_' base_name).getD 1 "") = some pn →
      dictGet lookup_month_and_season_name
        ((splitStr '_' base_name).getLast?.getD "") = some mn →
      derive_new_file_name base_name
        = some (pn ++ "_" ++ (splitStr '_' base_name).getD 4 "" ++ "_1991-2020_" ++ mn))
  ∧ ((dictGet lookup_dict_parameter ((splitStr '_' base_name).getD 1 "") = none
      ∨ dictGet lookup_month_and_season_name
          ((splitStr '_' base_name).getLast?.getD "") = none) →
      derive_new_file_name base_name = none) := by
  have hd : ∃ p0 p1 p2 p3 p4 rest,
      splitStr '_' base_name = p0 :: p1 :: p2 :: p3 :: p4 :: rest := by
    rcases hsp : splitStr '_' base_name with
        _ | ⟨p0, _ | ⟨p1, _ | ⟨p2, _ | ⟨p3, _ | ⟨p4, rest⟩⟩⟩⟩⟩ <;>
      rw [hsp] at h5 <;>
      first
        | exact ⟨_, _, _, _, _, _, rfl⟩
        | simp at h5
  obtain ⟨p0, p1, p2, p3, p4, rest, hp⟩ := hd
  have hlast : ∃ lastSeg, (splitStr '_' base_name).getLast? = some lastSeg := by
    rw [hp]
    exact ⟨_, List.getLast?_eq_getLast _ (by simp)⟩
  obtain ⟨lastSeg, hlast⟩ := hlast
  constructor
  · intro pn mn hpn hmn
    rw [hlast] at hmn
    rw [hp] at hlast hpn
    simp only [Option.getD_some] at hmn
    simp at hpn
    simp [derive_new_file_name, hp, hlast, hpn, hmn]
  · intro hnone
    rw [hlast] at hnone
    rw [hp] at hlast hnone
    simp only [Option.getD_some] at hnone
    simp at hnone
    rcases hnone with hn | hn <;>
      simp [derive_new_file_name, hp, hlast, hn]

/-- Witness for C4 at a concrete base name with a known parameter code and
period token. -/
theorem derive_new_file_name_spec_witness :
    5 ≤ (splitStr '_' "aslrx_00_foo_bar_500m_annual").length
  ∧ derive_new_file_name "aslrx_00_foo_bar_500m_annual"
      = some "Total-Rainfall_500m_1991-2020_Annual" := by
  have h := (derive_new_file_name_spec "aslrx_00_foo_bar_500m_annual" (by decide)).1
    "Total-Rainfall" "Annual" (by decide) (by decide)
  refine ⟨by decide, ?_⟩
  rw [h]
  decide

/-! ## Packaging stage (`process_files_in_ascdict`, source lines 327–346)

The script opens a fresh zip archive and iterates `os.listdir(base_clip_dir)`:
files starting with the clipped raster's base name are added, except those
ending in `".lock"` which are skipped; an exception while writing one
member is caught and logged, and iteration continues.  The directory
listing and the per-member write failure are inputs here. -/

/-- Embedding of the zip-member loop: the ordered list of member names the
archive receives, given the directory listing and a write-failure oracle. -/
def zipMembers (tif_base_name : String) (listing : List String)
    (writeFails : String → Bool) : List String :=
  listing.foldl
    (fun acc file =>
      if startsWithL tif_base_name.data file.data then
        if endsWithL ".lock".data file.data then acc
        else if writeFails file then acc else acc ++ [file]
      else acc)
    []

/-- The zip-member loop keeps exactly the prefix-matching, non-lock,
successfully written files, in listing order. -/
theorem zipMembers_eq_filter (b : String) (listing : List String)
    (writeFails : String → Bool) :
    zipMembers b listing writeFails =
      listing.filter (fun f =>
        startsWithL b.data f.data && !endsWithL ".lock".data f.data && !writeFails f) := by
  suffices h : ∀ acc : List String,
      listing.foldl
        (fun acc file =>
          if startsWithL b.data file.data then
            if endsWithL ".lock".data file.data then acc
            else if writeFails file then acc else acc ++ [file]
          else acc) acc
      = acc ++ listing.filter (fun f =>
          startsWithL b.data f.data && !endsWithL ".lock".data f.data && !writeFails f) by
    simpa using h []
  induction listing with
  | nil => simp
  | cons f rest ih =>
      intro acc
      by_cases h1 : startsWithL b.data f.data <;>
        by_cases h2 : endsWithL ".lock".data f.data <;>
        by_cases h3 : writeFails f <;>
        simp [h1, h2, h3, ih, List.filter_cons]

/-- C5: every file ending in `".lock"` is excluded from the archive, and
every file of the listing that starts with the clipped raster's base name,
is not a lock file, and whose own write does not fail is included — whatever
the write-failure oracle does on the other members (a member failure does
not abort the loop). -/
theorem zipMembers_spec (b f : String) (listing : List String)
    (writeFails : String → Bool) (hf : f ∈ listing) :
    (endsWithL ".lock".data f.data = true → f ∉ zipMembers b listing writeFails)
  ∧ (startsWithL b.data f.data = true → endsWithL ".lock".data f.data = false →
      writeFails f = false → f ∈ zipMembers b listing writeFails) := by
  rw [zipMembers_eq_filter]
  constructor
  · intro hlock hmem
    have := List.of_mem_filter hmem
    simp [hlock] at this
  · intro h1 h2 h3
    exact List.mem_filter.mpr ⟨hf, by simp [h1, h2, h3]⟩

/-- Witness for C5 at a concrete listing: the sidecar whose write fails is
skipped, the lock file is excluded, and the other same-prefix files are in. -/
theorem zipMembers_spec_witness :
    ("Rain_Auckland.tif" ∈ zipMembers "Rain_Auckland"
      ["Rain_Auckland.tif", "Rain_Auckland.tif.lock", "Rain_Auckland.tfw", "Rain_Auckland.tif.xml"]
      (fun g => g == "Rain_Auckland.tfw"))
  ∧ ("Rain_Auckland.tif.lock" ∉ zipMembers "Rain_Auckland"
      ["Rain_Auckland.tif", "Rain_Auckland.tif.lock", "Rain_Auckland.tfw", "Rain_Auckland.tif.xml"]
      (fun g => g == "Rain_Auckland.tfw"))
  ∧ ("Rain_Auckland.tif.xml" ∈ zipMembers "Rain_Auckland"
      ["Rain_Auckland.tif", "Rain_Auckland.tif.lock", "Rain_Auckland.tfw", "Rain_Auckland.tif.xml"]
      (fun g => g == "Rain_Auckland.tfw")) := by
  refine ⟨?_, ?_, ?_⟩
  · exact (zipMembers_spec "Rain_Auckland" "Rain_Auckland.tif" _ _ (by decide)).2
      (by decide) (by decide) (by decide)
  · exact (zipMembers_spec "Rain_Auckland" "Rain_Auckland.tif.lock" _ _ (by decide)).1
      (by decide)
  · exact (zipMembers_spec "Rain_Auckland" "Rain_Auckland.tif.xml" _ _ (by decide)).2
      (by decide) (by decide) (by decide)

/-! ## Upload stage (`upload_file`, source lines 377–406) -/

/-- Why an upload attempt can fail: the storage client is absent (the
optional `boto3` import at source lines 77–92 failed, so the name `s3` is
undefined and the call inside the `try` raises `NameError`), or the storage
call itself raises (network, credentials, bucket). -/
inductive UploadError where
  | clientAbsent
  | clientError (msg : String)
deriving DecidableEq

/-- Embedding of the object-key construction of `upload_file` (source lines
387–393): `file_name = os.path.basename(file_path)`; a truthy (present and
non-empty) prefix yields the key `prefix.strip('/') + "/" + file_name`,
otherwise the key is the bare file name. -/
def object_name_of (pfx : Option String) (file_path : String) : String :=
  let file_name := basename file_path
  match pfx with
  | some p =>
      if p = "" then file_name
      else (⟨stripSlashChars p.data⟩ : String) ++ "/" ++ file_name
  | none => file_name

/-- Embedding of `upload_file` (source lines 377–406): build the object key,
attempt the upload through the oracle `attempt` (modelling
`s3.Bucket(bucket_name).upload_file(file_path, object_name)`); any raised
error — `UploadError.clientAbsent` included — is caught by the
`except Exception` handler, which logs and returns `False`; success returns
`True`.  That the function is total into `Bool` is the shallow form of
"never raises past this boundary". -/
def upload_file (attempt : String → String → String → Except UploadError Unit)
    (file_path bucket_name : String) (pfx : Option String) : Bool :=
  let object_name := object_name_of pfx file_path
  match attempt bucket_name file_path object_name with
  | .ok _ => true
  | .error _ => false

/-- C7: the upload stage returns `true` exactly on success; every failure of
the attempt — the absent-client case included — is caught inside
`upload_file` and turned into the return value `false`, never propagated
(the embedding is a total function into `Bool`). -/
theorem upload_file_spec
    (attempt : String → String → String → Except UploadError Unit)
    (fp b : String) (pfx : Option String) :
    (attempt b fp (object_name_of pfx fp) = .ok () → upload_file attempt fp b pfx = true)
  ∧ (∀ e : UploadError, attempt b fp (object_name_of pfx fp) = .error e →
      upload_file attempt fp b pfx = false)
  ∧ (attempt b fp (object_name_of pfx fp) = .error .clientAbsent →
      upload_file attempt fp b pfx = false) := by
  refine ⟨fun h => ?_, fun e h => ?_, fun h => ?_⟩ <;> simp [upload_file, h]

/-- Witness for C7: a client-absent attempt returns `false`, a successful
attempt returns `true`, at concrete arguments. -/
theorem upload_file_spec_witness :
    upload_file (fun _ _ _ => .error .clientAbsent)
      "D:\\out\\foo.zip" "bucket" (some "climatology-grids") = false
  ∧ upload_file (fun _ _ _ => .ok ())
      "D:\\out\\foo.zip" "bucket" (some "climatology-grids") = true := by
  refine ⟨?_, ?_⟩
  · exact (upload_file_spec (fun _ _ _ => .error .clientAbsent)
      "D:\\out\\foo.zip" "bucket" (some "climatology-grids")).2.2 rfl
  · exact (upload_file_spec (fun _ _ _ => .ok ())
      "D:\\out\\foo.zip" "bucket" (some "climatology-grids")).1 rfl

/-- C6 counterexample: for the non-empty prefix `"/climatology-grids"` the
code strips the LEADING slash too (`strip('/')` strips both ends), so the
key is `"climatology-grids/foo.zip"`, not the claimed
`{prefix-with-trailing-slash-stripped}/{basename}` =
`"/climatology-grids/foo.zip"`. -/
theorem object_name_of_counterexample :
    object_name_of (some "/climatology-grids") "foo.zip" = "climatology-grids/foo.zip"
  ∧ (⟨stripTrailingSlashes "/climatology-grids".data⟩ : String) = "/climatology-grids"
  ∧ "climatology-grids/foo.zip"
      ≠ (⟨stripTrailingSlashes "/climatology-grids".data⟩ : String) ++ "/" ++ "foo.zip" :=
  ⟨by decide, by decide, by decide⟩

/-- C6 (amended): for a non-empty prefix that does not begin with a slash
the object key is the prefix with trailing slashes stripped, a `"/"`, and
the file's basename (no double slash); with an empty or absent prefix the
key is the bare basename.  (In general the code strips slashes from both
ends, which coincides with trailing-slash stripping exactly when the prefix
has no leading slash.) -/
theorem object_name_of_amended (p fp : String) (h0 : p.data ≠ [])
    (h1 : p.data.head? ≠ some '/') :
    object_name_of (some p) fp
      = (⟨stripTrailingSlashes p.data⟩ : String) ++ "/" ++ basename fp
  ∧ object_name_of none fp = basename fp
  ∧ object_name_of (some "") fp = basename fp := by
  have hne : ¬ p = "" := by
    intro he
    rw [he] at h0
    exact h0 rfl
  have hdw : p.data.dropWhile (fun c => c = '/') = p.data := by
    cases hd : p.data with
    | nil => rfl
    | cons c cs =>
        rw [hd] at h1
        have hc : ¬ c = '/' := by
          intro hc
          exact h1 (by subst hc; rfl)
        simp [List.dropWhile_cons, hc]
  refine ⟨?_, rfl, by simp [object_name_of]⟩
  simp only [object_name_of, hne, if_false]
  rw [show stripSlashChars p.data = stripTrailingSlashes p.data by
    simp only [stripSlashChars, stripTrailingSlashes, hdw]]

/-- Witness for the amended C6 at the spec's own example: prefix
`"climatology-grids/"` with basename `"foo.zip"` yields
`"climatology-grids/foo.zip"`, and an absent or empty prefix yields
`"foo.zip"`. -/
theorem object_name_of_amended_witness :
    object_name_of (some "climatology-grids/") "D:\\out\\foo.zip" = "climatology-grids/foo.zip"
  ∧ object_name_of none "D:\\out\\foo.zip" = "foo.zip"
  ∧ object_name_of (some "") "D:\\out\\foo.zip" = "foo.zip" := by
  have h := object_name_of_amended "climatology-grids/" "D:\\out\\foo.zip"
    (by decide) (by decide)
  refine ⟨?_, ?_, ?_⟩
  · rw [h.1]; decide
  · rw [h.2.1]; decide
  · rw [h.2.2]; decide

/-- C9 counterexample: the prefix `"/"` is non-empty and truthy, has a
leading slash, strips to the empty string, and produces the key
`"/foo.zip"` — which does begin with a slash (an empty leading path
segment), contradicting the claim's "never". -/
theorem object_name_of_slash_counterexample :
    object_name_of (some "/") "foo.zip" = "/foo.zip"
  ∧ ("/foo.zip" : String).data.head? = some '/' :=
  ⟨by decide, by decide⟩

/-- C9 (amended): for every truthy prefix the key is the prefix stripped of
slash characters at both ends, followed by `"/"` and the basename; when the
prefix contains at least one non-slash character the stripped prefix is
non-empty and starts with a non-slash character, so the key has no leading
slash and no empty leading path segment.  (A prefix consisting solely of
slashes strips to the empty string and the key degenerates to
`"/" ++ basename`.) -/
theorem any_dropWhile_slash (cs : List Char)
    (h : cs.any (fun c => c ≠ '/') = true) :
    (cs.dropWhile (fun c => c = '/')).any (fun c => c ≠ '/') = true := by
  induction cs with
  | nil => simp at h
  | cons c cs ih =>
      by_cases hc : c = '/'
      · rw [List.dropWhile_cons_of_pos (by simp [hc])]
        apply ih
        simp only [List.any_cons, Bool.or_eq_true] at h
        rcases h with h | h
        · simp [hc] at h
        · exact h
      · rw [List.dropWhile_cons_of_neg (by simp [hc])]
        simp only [List.any_cons, Bool.or_eq_true]
        exact Or.inl (by simpa using hc)

theorem object_name_of_strips_both_ends (p fp : String) (h0 : ¬ p = "")
    (h1 : p.data.any (fun c => c ≠ '/') = true) :
    object_name_of (some p) fp
      = (⟨stripSlashChars p.data⟩ : String) ++ "/" ++ basename fp
  ∧ (stripSlashChars p.data).head? ≠ some '/'
  ∧ (object_name_of (some p) fp).data.head? ≠ some '/' := by
  have hkey : object_name_of (some p) fp
      = (⟨stripSlashChars p.data⟩ : String) ++ "/" ++ basename fp := by
    simp [object_name_of, h0]
  set A := p.data.dropWhile (fun c => c = '/') with hA
  have hAany : A.any (fun c => c ≠ '/') = true := by
    rw [hA]
    exact any_dropWhile_slash _ h1
  have hsplit : A = stripSlashChars p.data
      ++ (A.reverse.takeWhile (fun c => c = '/')).reverse := by
    have h2 := List.takeWhile_append_dropWhile (l := A.reverse) (p := fun c => c = '/')
    have h3 := congrArg List.reverse h2
    rw [List.reverse_append, List.reverse_reverse] at h3
    rw [stripSlashChars, hA]
    exact h3.symm
  have hBne : stripSlashChars p.data ≠ [] := by
    intro hB
    rw [hB, List.nil_append] at hsplit
    obtain ⟨x, hx, hxp⟩ := List.any_eq_true.mp hAany
    rw [hsplit] at hx
    have := List.mem_takeWhile_imp (List.mem_reverse.mp hx)
    simp at this hxp
    exact hxp this
  have hheadA : A.head? ≠ some '/' := by
    intro hh
    have h4 := List.head?_dropWhile_not (fun c => c = '/') p.data
    rw [← hA] at h4
    rw [hh] at h4
    simp at h4
  have hheadB : (stripSlashChars p.data).head? ≠ some '/' := by
    rw [hsplit, List.head?_append_of_ne_nil _ hBne] at hheadA
    exact hheadA
  refine ⟨hkey, hheadB, ?_⟩
  rw [hkey]
  simp only [String.data_append]
  rw [List.append_assoc, List.head?_append_of_ne_nil _ hBne]
  exact hheadB

/-- Witness for the amended C9: a prefix with both a leading and a trailing
slash yields a key with neither a leading slash nor a double slash. -/
theorem object_name_of_strips_both_ends_witness :
    object_name_of (some "/climatology-grids/") "D:\\out\\foo.zip"
      = "climatology-grids/foo.zip"
  ∧ ("climatology-grids/foo.zip" : String).data.head? ≠ some '/' := by
  have h := object_name_of_strips_both_ends "/climatology-grids/" "D:\\out\\foo.zip"
    (by decide) (by decide)
  have hk : object_name_of (some "/climatology-grids/") "D:\\out\\foo.zip"
      = "climatology-grids/foo.zip" := by
    rw [h.1]; decide
  exact ⟨hk, by rw [← hk]; exact h.2.2⟩

/-! ## Metadata emitter (`create_json_file`, source lines 409–502)

The emitted JSON object is modelled as a record.  The `{"$date": ...}`
wrappers of `dateMin`, `dateMax` and `updatedAt` carry a single string, kept
here as that string.  The GIS toolkit's reprojection of the extent polygon
(`arcpy.Project_management` plus the coordinate-extracting cursor, source
lines 437–448) is an abstract function argument `reproj` from an abstract
extent type to an abstract coordinates type, and `datetime.now().isoformat()`
is the argument `nowIso`. -/

/-- The `geojson` value: `{"type": "Polygon", "coordinates": ...}`. -/
structure GeoJson (G : Type) where
  type : String
  coordinates : G
deriving DecidableEq

/-- The `metadata` block of the emitted JSON document. -/
structure MetadataBlock (G : Type) where
  title : String
  description : String
  geojson : GeoJson G
  dateMin : String
  dateMax : String
  version : String
  updatedAt : String
  parameter : String
  period : String
  statistic : String
  region : String
deriving DecidableEq

/-- The whole emitted JSON document `json_data`. -/
structure JsonData (G : Type) where
  src : String
  productRef : String
  metadata : MetadataBlock G
deriving DecidableEq

/-- Value of `datetime.strptime("1991-01-01", "%Y-%m-%d").isoformat()` (source
lines 110–112). -/
def iso_date_str_start : String := "1991-01-01T00:00:00"

/-- Value of `datetime.strptime("2020-12-31", "%Y-%m-%d").isoformat()` (source
lines 115–117). -/
def iso_date_str_stop : String := "2020-12-31T00:00:00"

/-- The dash-to-space replacement applied to the filename's first segment
(source line 421). -/
def dashToSpace (s : String) : String :=
  ⟨s.data.map (fun c => if c = '-' then ' ' else c)⟩

/-- Embedding of `create_json_file` (source lines 409–502): re-split the
output file's basename on underscores, derive `type_param`, `period`,
`statistic` and `region` from the segments, reproject the extent through
`reproj`, and populate the JSON template.  Accessing `components[2]`
raises `IndexError` when the split has fewer than three segments, hence
`none` there; otherwise the document is returned (the file write and the
returned path are outside the data model). -/
def create_json_file {E G : Type} (reproj : E → G) (file_path pfx : String)
    (extent : E) (region_title month_and_season : String)
    (nowIso : String) : Option (JsonData G) :=
  match splitStr '_' (basename file_path) with
  | c0 :: c1 :: c2 :: rest =>
      let file_stem : String := ⟨(splitextChars (basename file_path).data).1⟩
      let type_param := dashToSpace c0
      let period := c2
      let statistic := c1
      let region : String :=
        (splitStr '.' ((c0 :: c1 :: c2 :: rest).getLast (by simp))).headD ""
      let geojson : GeoJson G := { type := "Polygon", coordinates := reproj extent }
      let iso_date_str_startz := iso_date_str_start ++ "Z"
      let iso_date_str_stopz := iso_date_str_stop ++ "Z"
      let iso_stringz := nowIso ++ "Z"
      some
        { src := "/" ++ pfx ++ "/" ++ file_stem ++ ".zip"
          productRef := pfx
          metadata :=
            { title := "Climatology Grid " ++ type_param ++ " (1991-2020), "
                ++ month_and_season ++ ", Region: " ++ region_title
              description := "This dataset comprises a 500m resolution grid of climatologic normals (averages) for: Parameter: "
                ++ type_param ++ "; Statistic: " ++ statistic ++ "; Period: "
                ++ period ++ "; " ++ month_and_season ++ "; Region: " ++ region_title
              geojson := geojson
              dateMin := iso_date_str_startz
              dateMax := iso_date_str_stopz
              version := "1.0"
              updatedAt := iso_stringz
              parameter := type_param
              period := month_and_season
              statistic := statistic
              region := region_title } }
  | _ => none

/-- C1 counterexample: at a concrete clipped-raster output name, the
emitted `metadata.period` field is the month/season argument (`"January"`),
not segment 2 of the re-split filename (`"1991-2020"`), and the
`metadata.region` field is the region-title argument (`"Bay of Plenty"`),
not the last segment minus extension (`"Bay-Of-Plenty"`). -/
theorem create_json_file_counterexample :
    ((create_json_file (fun _ : Unit => (0 : Nat))
        "04\\Total-Rainfall_500m_1991-2020_January_Bay-Of-Plenty.tif"
        "climatology-grids" () "Bay of Plenty" "January" "2024-06-24T00:00:00").map
          (fun j => (j.metadata.period, j.metadata.region)))
      = some ("January", "Bay of Plenty")
  ∧ (splitStr '_'
      (basename "04\\Total-Rainfall_500m_1991-2020_January_Bay-Of-Plenty.tif")).getD 2 ""
      = "1991-2020"
  ∧ ((splitStr '.'
      ((splitStr '_'
        (basename "04\\Total-Rainfall_500m_1991-2020_January_Bay-Of-Plenty.tif")).getLast?.getD
          "")).headD "")
      = "Bay-Of-Plenty"
  ∧ ("January" : String) ≠ "1991-2020"
  ∧ ("Bay of Plenty" : String) ≠ "Bay-Of-Plenty" := by
  refine ⟨by decide, by decide, by decide, by decide, by decide⟩

/-- C1 (amended): whenever the emitter succeeds, the `parameter` field is
segment 0 of the re-split output filename with dashes replaced by spaces
and the `statistic` field is raw segment 1 (no table lookup), as claimed;
but the `period` field equals the month/season argument passed in (segment
2 appears only inside the description text), and the `region` field equals
the region-title argument passed in (the last segment minus extension is
computed into a local that goes unused). -/
theorem create_json_file_fields {E G : Type} (reproj : E → G)
    (fp pfx : String) (extent : E) (region_title month_and_season nowIso : String)
    (j : JsonData G)
    (h : create_json_file reproj fp pfx extent region_title month_and_season nowIso
          = some j) :
    j.metadata.parameter = dashToSpace ((splitStr '_' (basename fp)).headD "")
  ∧ j.metadata.statistic = (splitStr '_' (basename fp)).getD 1 ""
  ∧ j.metadata.period = month_and_season
  ∧ j.metadata.region = region_title := by
  unfold create_json_file at h
  rcases hc : splitStr '_' (basename fp) with _ | ⟨c0, _ | ⟨c1, _ | ⟨c2, rest⟩⟩⟩ <;>
    rw [hc] at h
  · simp at h
  · simp at h
  · simp at h
  · obtain rfl := Option.some.inj h
    exact ⟨rfl, rfl, rfl, rfl⟩

/-- Witness for the amended C1 at a concrete clipped-raster output name. -/
theorem create_json_file_fields_witness :
    ((create_json_file (fun _ : Unit => (0 : Nat))
        "04\\Total-Rainfall_500m_1991-2020_January_Bay-Of-Plenty.tif"
        "climatology-grids" () "Bay of Plenty" "January" "2024-06-24T00:00:00").map
          (fun j =>
            (j.metadata.parameter, j.metadata.statistic,
             j.metadata.period, j.metadata.region)))
      = some ("Total Rainfall", "500m", "January", "Bay of Plenty") := by
  cases hj : create_json_file (fun _ : Unit => (0 : Nat))
      "04\\Total-Rainfall_500m_1991-2020_January_Bay-Of-Plenty.tif"
      "climatology-grids" () "Bay of Plenty" "January" "2024-06-24T00:00:00" with
  | none => exact absurd hj (by decide)
  | some j =>
      have h := create_json_file_fields (fun _ : Unit => (0 : Nat))
        "04\\Total-Rainfall_500m_1991-2020_January_Bay-Of-Plenty.tif"
        "climatology-grids" () "Bay of Plenty" "January" "2024-06-24T00:00:00" j hj
      show some (j.metadata.parameter, j.metadata.statistic,
        j.metadata.period, j.metadata.region)
        = some ("Total Rainfall", "500m", "January", "Bay of Plenty")
      rw [h.1, h.2.1, h.2.2.1, h.2.2.2]
      decide

/-- Forget the `updatedAt` stamp, for comparing documents up to the clock. -/
def eraseUpdatedAt {G : Type} (j : JsonData G) : JsonData G :=
  { j with metadata := { j.metadata with updatedAt := "" } }

/-- C10: two emissions with identical arguments (and the external
reprojection a fixed function) produce documents identical in every field
except `metadata.updatedAt`, which is stamped from the clock argument with
a trailing `Z`. -/
theorem create_json_file_deterministic {E G : Type} (reproj : E → G)
    (fp pfx : String) (extent : E) (rt ms t1 t2 : String) :
    (create_json_file reproj fp pfx extent rt ms t1).map eraseUpdatedAt
      = (create_json_file reproj fp pfx extent rt ms t2).map eraseUpdatedAt
  ∧ (∀ j, create_json_file reproj fp pfx extent rt ms t1 = some j →
      j.metadata.updatedAt = t1 ++ "Z") := by
  constructor
  · unfold create_json_file
    rcases splitStr '_' (basename fp) with _ | ⟨c0, _ | ⟨c1, _ | ⟨c2, rest⟩⟩⟩ <;> rfl
  · intro j h
    unfold create_json_file at h
    rcases hc : splitStr '_' (basename fp) with _ | ⟨c0, _ | ⟨c1, _ | ⟨c2, rest⟩⟩⟩ <;>
      rw [hc] at h
    · simp at h
    · simp at h
    · simp at h
    · obtain rfl := Option.some.inj h
      rfl

/-- Witness for C10 at concrete arguments and two different clock values. -/
theorem create_json_file_deterministic_witness :
    ((create_json_file (fun _ : Unit => (0 : Nat))
        "04\\Total-Rainfall_500m_1991-2020_January_Bay-Of-Plenty.tif"
        "climatology-grids" () "Bay of Plenty" "January" "2024-06-24T00:00:00").map
          eraseUpdatedAt
      = (create_json_file (fun _ : Unit => (0 : Nat))
          "04\\Total-Rainfall_500m_1991-2020_January_Bay-Of-Plenty.tif"
          "climatology-grids" () "Bay of Plenty" "January" "2025-12-31T23:59:59").map
            eraseUpdatedAt)
  ∧ ((create_json_file (fun _ : Unit => (0 : Nat))
        "04\\Total-Rainfall_500m_1991-2020_January_Bay-Of-Plenty.tif"
        "climatology-grids" () "Bay of Plenty" "January" "2024-06-24T00:00:00").map
          (fun j => j.metadata.updatedAt))
      = some "2024-06-24T00:00:00Z" := by
  have h := create_json_file_deterministic (fun _ : Unit => (0 : Nat))
    "04\\Total-Rainfall_500m_1991-2020_January_Bay-Of-Plenty.tif"
    "climatology-grids" () "Bay of Plenty" "January"
    "2024-06-24T00:00:00" "2025-12-31T23:59:59"
  refine ⟨h.1, ?_⟩
  cases hj : create_json_file (fun _ : Unit => (0 : Nat))
      "04\\Total-Rainfall_500m_1991-2020_January_Bay-Of-Plenty.tif"
      "climatology-grids" () "Bay of Plenty" "January" "2024-06-24T00:00:00" with
  | none => exact absurd hj (by decide)
  | some j =>
      show some j.metadata.updatedAt = some "2024-06-24T00:00:00Z"
      rw [h.2 j hj]
      decide

end GeoETL
